import Mathlib

/-!
Shallow embedding of the simplelogin-mailcow-bridge core
(internal/alias/alias.go: the template expansion engine, and the
credential-cache module of the auth package) together with theorems
settling the specification claims.

Modelling conventions:
* Go strings are `List Char` (all data here is ASCII, so bytes = runes).
* The process-global `math/rand` source is modelled as an explicit stream
  of natural numbers (`Rng`).  `Intn n` consumes one number and reduces it
  modulo `n`; every outcome reachable in Go is reachable for some stream
  and vice versa.  `rand.Float64()` results are only ever compared against
  the constants 0.3/0.4/0.5/0.6/0.7/0.8 in the source, so a draw is
  modelled in fixed-point thousandths (a stream value modulo 1000), with
  the comparisons scaled by 1000.
* `rand.Intn n` panics in Go when `n ≤ 0`.  The only reachable site where
  this can happen is `randBetween`, which therefore returns
  `Except.error .intnFault` exactly under Go's panic condition.
* The scan-and-replace loops of the source are not structurally
  terminating (and indeed one of them can diverge), so each loop takes a
  fuel argument; fuel exhaustion is `Except.error .fuelOut`.  A loop whose
  guard already fails consumes no fuel, so `fuelOut` for every fuel means
  genuine divergence of the Go loop.
* Go `int` subtraction such as `length-2` in a comparison
  `len(result) < length-2` is modelled with truncated `Nat` subtraction;
  at every use site the source value is non-negative or the comparison
  agrees with the Go one (the strings involved are provably non-empty).
* Numeric literals inside tokens are parsed to `Nat` (the regex only
  admits digit runs; `strconv.Atoi` overflow clamping is not modelled,
  which is exact for all values below 2^63).
-/

/-- Go strings (ASCII). -/
abbrev Str := List Char

/-- The random source: a stream of pre-drawn naturals. -/
abbrev Rng := List Nat

/-- Draw the next raw value from the stream (0 when exhausted). -/
def nextN : Rng → Nat × Rng
  | [] => (0, [])
  | x :: t => (x, t)

/-- `randSource.Intn n` for a positive `n`: next value modulo `n`. -/
def intn (n : Nat) (r : Rng) : Nat × Rng :=
  let (x, t) := nextN r
  (x % n, t)

/-- `randSource.Float64()` in fixed-point thousandths. -/
def nextFloat (r : Rng) : Nat × Rng :=
  let (x, t) := nextN r
  (x % 1000, t)

/-- Index uniformly into a list, Go's `l[Intn(len(l))]` (lists used with
this are non-empty constants, so the default is never returned there). -/
def pick {α : Type} (l : List α) (d : α) (r : Rng) : α × Rng :=
  let (i, t) := intn l.length r
  (l.getD i d, t)

/-- Faults and errors of the embedded generator. -/
inductive GenErr where
  | emptyInput
  | invalidEmail
  | intnFault
  | fuelOut
deriving Repr, DecidableEq

-- Constants of internal/alias/alias.go

def defaultMinNameLength : Nat := 3
def defaultMaxNameLength : Nat := 10
def defaultWordLength : Nat := 10
def defaultCharLength : Nat := 10
def defaultWordCount : Nat := 1

def WordsPattern : Str := (r"{words}").toList
def WordCharsPattern : Str := (r"{word-chars}").toList
def CharsPattern : Str := (r"{chars}").toList
def NamesPattern : Str := (r"{names}").toList
def FirstNamePattern : Str := (r"{firstname}").toList
def LastNamePattern : Str := (r"{lastname}").toList
def MiddleNamePattern : Str := (r"{middlename}").toList
def NicknamePattern : Str := (r"{nickname}").toList

def DomainPlaceholder : Str := (r"%d").toList

def letterChars : Str := (r"abcdefghijklmnopqrstuvwxyz").toList
def numberChars : Str := (r"0123456789").toList
def specialChars : Str := (r".-_").toList
def wordCharsAllowed : Str := letterChars ++ numberChars
def allCharsAllowed : Str := wordCharsAllowed ++ specialChars

def commonNouns : List Str := ([r"apple", r"arrow", r"autumn", r"beach", r"bird", r"book", r"cake",
  r"cloud", r"coffee", r"diamond", r"dream", r"eagle", r"earth", r"fire",
  r"forest", r"garden", r"honey", r"island", r"jungle", r"lake", r"leaf",
  r"lemon", r"light", r"lotus", r"marble", r"meadow", r"moon", r"mountain",
  r"ocean", r"panda", r"paper", r"planet", r"river", r"rocket", r"rose",
  r"shadow", r"silver", r"sky", r"snow", r"star", r"storm", r"summer",
  r"sunset", r"thunder", r"tiger", r"tree", r"valley", r"wave", r"wind",
  r"winter", r"wolf", r"zebra"]).map (fun s => s.toList)

def adjectives : List Str := ([r"amber", r"ancient", r"azure", r"bold", r"brave", r"bright", r"calm",
  r"clever", r"cosmic", r"crystal", r"curious", r"daring", r"deep", r"eager",
  r"elegant", r"emerald", r"enchanted", r"energetic", r"gentle", r"golden",
  r"happy", r"hidden", r"humble", r"infinite", r"jade", r"joyful", r"kind",
  r"loyal", r"lucky", r"magical", r"mighty", r"mystic", r"noble", r"peaceful",
  r"proud", r"purple", r"quick", r"quiet", r"radiant", r"royal", r"ruby",
  r"rustic", r"serene", r"silent", r"silver", r"smooth", r"solar", r"swift",
  r"tranquil", r"valiant", r"vibrant", r"wild", r"wise", r"zealous"]).map (fun s => s.toList)

def vowels : List Char := ['a', 'e', 'i', 'o', 'u']
def consonants : List Char := ['b', 'c', 'd', 'f', 'g', 'h', 'j', 'k', 'l', 'm', 'n', 'p', 'q', 'r', 's', 't', 'v', 'w', 'x', 'y', 'z']

def commonSyllables : List Str := ([r"al", r"an", r"ar", r"as", r"ash", r"ba", r"be", r"ben", r"ber", r"beth", r"bi", r"ble", r"bri",
  r"ca", r"car", r"ce", r"cha", r"che", r"chi", r"chris", r"co", r"con", r"cy",
  r"da", r"dan", r"de", r"di", r"do", r"don", r"dy", r"ed", r"el", r"en", r"er", r"eth", r"ey",
  r"fa", r"fe", r"fi", r"fo", r"ford", r"fred", r"fy", r"ga", r"ge", r"geor", r"go", r"gor",
  r"ha", r"han", r"he", r"hi", r"ho", r"hy", r"in", r"ing", r"is", r"ja", r"jack", r"jam", r"je", r"jen",
  r"ji", r"jo", r"john", r"jon", r"ju", r"ka", r"ke", r"ken", r"ki", r"kin", r"la", r"le", r"len",
  r"li", r"lin", r"lo", r"ly", r"ma", r"mar", r"matt", r"me", r"mel", r"mi", r"mich", r"mo",
  r"na", r"ne", r"ni", r"nick", r"no", r"ny", r"pa", r"pe", r"per", r"phi", r"pi", r"po",
  r"ra", r"re", r"ri", r"rich", r"rick", r"ro", r"rob", r"ron", r"ry",
  r"sa", r"sam", r"se", r"sha", r"she", r"si", r"so", r"son", r"ste", r"ster", r"ston",
  r"ta", r"te", r"ter", r"tho", r"thom", r"ti", r"to", r"ton", r"ty",
  r"va", r"ve", r"vi", r"vic", r"vo", r"wa", r"we", r"wil", r"win", r"wi",
  r"ya", r"ye", r"yo", r"za"]).map (fun s => s.toList)

def nameEndings : List Str := ([r"a", r"ah", r"an", r"ane", r"ar", r"ard", r"as", r"ay", r"ce", r"ch", r"ck", r"cy", r"d", r"dan",
  r"don", r"dy", r"e", r"ed", r"el", r"en", r"er", r"ers", r"es", r"ett", r"ey", r"feld", r"ford",
  r"fy", r"h", r"ia", r"ian", r"ie", r"in", r"ing", r"ins", r"io", r"is", r"ith", r"le", r"ley",
  r"lyn", r"man", r"mer", r"n", r"na", r"ne", r"ner", r"ney", r"nie", r"ny", r"on", r"or", r"ry",
  r"s", r"son", r"ston", r"sy", r"t", r"th", r"ton", r"ty", r"us", r"y", r"yn"]).map (fun s => s.toList)

def initialConsonantClusters : List Str := ([r"bl", r"br", r"ch", r"cl", r"cr", r"dr", r"fl", r"fr", r"gl", r"gr",
  r"pl", r"pr", r"sc", r"sh", r"sl", r"sm", r"sn", r"sp", r"st", r"sw",
  r"th", r"tr", r"tw", r"wh", r"wr"]).map (fun s => s.toList)

def endConsonants : List Str := ([r"n", r"l", r"r", r"s", r"t", r"m", r"th", r"y"]).map (fun s => s.toList)
def endVowels : List Char := ['a', 'e', 'i', 'o', 'y']
def separators : List Str := ([r".", r"_", r"-", r""]).map (fun s => s.toList)

def wordsT : Str := (r"words").toList
def wordCharsT : Str := (r"word-chars").toList
def charsT : Str := (r"chars").toList
def firstnameT : Str := (r"firstname").toList
def lastnameT : Str := (r"lastname").toList
def middlenameT : Str := (r"middlename").toList
def nicknameT : Str := (r"nickname").toList
def namesT : Str := (r"names").toList

/-- The name-type identifiers of the `switch`/regex checks. -/
def nameTypeNames : List Str := [firstnameT, lastnameT, middlenameT, nicknameT, namesT]

-- Character helpers (ASCII restriction of the unicode functions used)

/-- `unicode.ToUpper` restricted to ASCII. -/
def upChar (c : Char) : Char :=
  if 'a' ≤ c ∧ c ≤ 'z' then Char.ofNat (c.toNat - 32) else c

/-- `unicode.ToLower` restricted to ASCII. -/
def lowChar (c : Char) : Char :=
  if 'A' ≤ c ∧ c ≤ 'Z' then Char.ofNat (c.toNat + 32) else c

/-- `unicode.IsUpper` restricted to ASCII. -/
def isUpperChar (c : Char) : Bool := 'A' ≤ c && c ≤ 'Z'

/-- `isVowel` of alias.go. -/
def isVowel (c : Char) : Bool := (vowels.contains (lowChar c))

-- String helpers mirroring the strings package

/-- `strings.Contains`. -/
def containsStr : Str → Str → Bool
  | s, pat =>
    if pat.isPrefixOf s then true
    else match s with
      | [] => false
      | _ :: t => containsStr t pat

/-- `strings.Replace(s, pat, v, 1)`. -/
def replaceFirst : Str → Str → Str → Str
  | [], _, _ => []
  | c :: t, pat, v =>
    if pat ≠ [] ∧ pat.isPrefixOf (c :: t) then v ++ (c :: t).drop pat.length
    else c :: replaceFirst t pat v

/-- Fuelled worker for `strings.Replace(s, pat, v, -1)`. -/
def replaceAllAux : Nat → Str → Str → Str → Str
  | 0, s, _, _ => s
  | n + 1, s, pat, v =>
    match s with
    | [] => []
    | c :: t =>
      if pat ≠ [] ∧ pat.isPrefixOf (c :: t) then v ++ replaceAllAux n ((c :: t).drop pat.length) pat v
      else c :: replaceAllAux n t pat v

/-- `strings.Replace(s, pat, v, -1)` (non-overlapping, left to right). -/
def replaceAll (s pat v : Str) : Str := replaceAllAux s.length s pat v

/-- `strings.Split(s, sep)` for a one-character separator. -/
def splitChar (sep : Char) : Str → List Str
  | [] => [[]]
  | c :: t =>
    if c = sep then [] :: splitChar sep t
    else match splitChar sep t with
      | [] => [[c]]
      | h :: rest => (c :: h) :: rest

/-- Number of occurrences of a character. -/
def countChar (c : Char) (s : Str) : Nat := (s.filter (fun x => x = c)).length

/-- `strings.ToUpper` (ASCII). -/
def toUpperStr (s : Str) : Str := s.map upChar

-- The lengthRegex token scanner
-- lengthRegex = \{([a-zA-Z-]+):(\d+)(?:,(\d+))?\}

/-- One parsed `{type:N}` / `{type:N,M}` occurrence. -/
structure Token where
  full : Str
  typ : Str
  n1 : Nat
  n2 : Option Nat
deriving Repr, DecidableEq

/-- Character class `[a-zA-Z-]` of the regex. -/
def isTypeChar (c : Char) : Bool :=
  ('a' ≤ c && c ≤ 'z') || ('A' ≤ c && c ≤ 'Z') || (c == '-')

/-- Character class `\d`. -/
def isDigitChar (c : Char) : Bool := '0' ≤ c && c ≤ '9'

/-- Digit run to value (`strconv.Atoi` on the regex's digit captures). -/
def digitsToNat (ds : Str) : Nat :=
  ds.foldl (fun acc c => acc * 10 + (c.toNat - ('0').toNat)) 0

/-- Attempt to complete a regex match right after an opening brace;
returns the token and the rest of the string after the match. -/
def tryParse (rest : Str) : Option (Token × Str) :=
  let typ := rest.takeWhile isTypeChar
  let r1 := rest.dropWhile isTypeChar
  if typ = [] then none else
  match r1 with
  | ':' :: r2 =>
    let d1 := r2.takeWhile isDigitChar
    let r3 := r2.dropWhile isDigitChar
    if d1 = [] then none else
    match r3 with
    | '}' :: r4 =>
        some ({ full := '{' :: typ ++ ':' :: d1 ++ ['}'], typ := typ,
                n1 := digitsToNat d1, n2 := none }, r4)
    | ',' :: r4 =>
      let d2 := r4.takeWhile isDigitChar
      let r5 := r4.dropWhile isDigitChar
      if d2 = [] then none else
      match r5 with
      | '}' :: r6 =>
          some ({ full := '{' :: typ ++ ':' :: d1 ++ ',' :: d2 ++ ['}'], typ := typ,
                  n1 := digitsToNat d1, n2 := some (digitsToNat d2) }, r6)
      | _ => none
    | _ => none
  | _ => none

/-- `lengthRegex.FindStringSubmatch`: leftmost match, with the remainder
of the string after the match (every match starts at a literal brace). -/
def findFirstTokenSplit : Str → Option (Token × Str)
  | [] => none
  | c :: t =>
    if c = '{' then
      match tryParse t with
      | some p => some p
      | none => findFirstTokenSplit t
    else findFirstTokenSplit t

/-- `lengthRegex.FindAllStringSubmatch`: all non-overlapping matches. -/
def findAllTokens : Nat → Str → List Token
  | fuel, s =>
    match findFirstTokenSplit s with
    | none => []
    | some (tk, rest) =>
      match fuel with
      | 0 => [tk]
      | n + 1 => tk :: findAllTokens n rest

-- Primitive generators

/-- `generateRandomChars` of alias.go. -/
def generateRandomChars (charset : Str) : Nat → Rng → Str × Rng
  | 0, r => ([], r)
  | n + 1, r =>
    let (c, r1) := pick charset 'a' r
    let (rest, r2) := generateRandomChars charset n r1
    (c :: rest, r2)

/-- `randBetween` of alias.go; `Intn` panics when `max-min+1 ≤ 0`,
which (for `min ≠ max`) is exactly `max < min`. -/
def randBetween (lo hi : Nat) (r : Rng) : Except GenErr (Nat × Rng) :=
  if lo = hi then .ok (lo, r)
  else if hi < lo then .error .intnFault
  else .ok ((nextN r).1 % (hi - lo + 1) + lo, (nextN r).2)

/-- The word-building loop of `generateWords`; the first argument counts
the remaining iterations, the second is the overall requested count
(the compound branch tests `count < 3` on the latter). -/
def generateWordsList : Nat → Nat → Rng → List Str × Rng
  | 0, _, r => ([], r)
  | n + 1, count, r =>
    let (f, r1) := nextFloat r
    let (w, r2) :=
      if f < 700 ∧ count < 3 then
        let (adj, ra) := pick adjectives (r"amber").toList r1
        let (noun, rb) := pick commonNouns (r"apple").toList ra
        (adj ++ noun, rb)
      else
        let (f2, ra) := nextFloat r1
        if f2 < 500 then pick adjectives (r"amber").toList ra
        else pick commonNouns (r"apple").toList ra
    let (rest, r3) := generateWordsList n count r2
    (w :: rest, r3)

/-- `strings.Join`. -/
def joinSep (sep : Str) : List Str → Str
  | [] => []
  | [w] => w
  | w :: rest => w ++ sep ++ joinSep sep rest

/-- `generateWords` of alias.go. -/
def generateWords (count0 : Nat) (r : Rng) : Str × Rng :=
  let count := if count0 = 0 then defaultWordCount else count0
  let (ws, r1) := generateWordsList count count r
  let (sep, r2) :=
    if 1 < count then pick separators [] r1 else ([], r1)
  (joinSep sep ws, r2)

/-- `generateWordChars` of alias.go. -/
def generateWordChars (length0 : Nat) (r : Rng) : Str × Rng :=
  let length := if length0 = 0 then defaultWordLength else length0
  let (c0, r1) := pick letterChars 'a' r
  if 1 < length then
    let (rest, r2) := generateRandomChars wordCharsAllowed (length - 1) r1
    (c0 :: rest, r2)
  else ([c0], r1)

/-- `generateChars` of alias.go. -/
def generateChars (length0 : Nat) (r : Rng) : Str × Rng :=
  let length := if length0 = 0 then defaultCharLength else length0
  let (c0, r1) := pick letterChars 'a' r
  if 1 < length then
    let (rest, r2) := generateRandomChars allCharsAllowed (length - 1) r1
    (c0 :: rest, r2)
  else ([c0], r1)

/-- The name-building loop of `generateName` (`for len(result) < length-2`).
Each iteration appends at least one character, so fuel `length` always
suffices; with exhausted fuel and with a failing guard the result is the
same `(res, r)`, so the two exit styles coincide. -/
def buildNameLoop : Nat → Nat → Str → Rng → Str × Rng
  | 0, _, res, r => (res, r)
  | n + 1, length, res, r =>
    if res.length < length - 2 then
      let (f, r1) := nextFloat r
      if f < 600 ∧ res.length + 2 ≤ length then
        let (syl, r2) := pick commonSyllables (r"al").toList r1
        if res.length + syl.length ≤ length then
          buildNameLoop n length (res ++ syl) r2
        else
          let lastC := res.getLastD 'a'
          let (c, r3) := if isVowel lastC then pick consonants 'b' r2 else pick vowels 'a' r2
          buildNameLoop n length (res ++ [c]) r3
      else
        let lastC := res.getLastD 'a'
        let (c, r3) := if isVowel lastC then pick consonants 'b' r1 else pick vowels 'a' r1
        buildNameLoop n length (res ++ [c]) r3
    else (res, r)

/-- The five-attempt ending selection of `generateName`. -/
def endingTries : Nat → Nat → Str → Rng → Str × Rng
  | 0, _, res, r => (res, r)
  | n + 1, length, res, r =>
    let (e, r') := pick nameEndings (r"a").toList r
    if res.length + e.length ≤ length then (res ++ e, r')
    else endingTries n length res r'

/-- The tail of `generateName` after the build loop: ending selection,
the one-character fixup, the trim to the target length, and the final
capitalization draw. -/
def nameFinish (length : Nat) (built : Str) (r4 : Rng) : Str × Rng :=
  let (withEnd, r5) :=
    if built.length ≤ length - 2 ∧ 0 < nameEndings.length then endingTries 5 length built r4
    else (built, r4)
  let (fixed, r6) :=
    if withEnd.length = length - 1 then
      let lastC := withEnd.getLastD 'a'
      if isVowel lastC then
        let (ec, r') := pick endConsonants (r"n").toList r5
        if ec = (r"th").toList then
          (if withEnd.length + 2 ≤ length then withEnd ++ (r"th").toList
           else withEnd ++ (r"t").toList, r')
        else (withEnd ++ ec, r')
      else
        let (ev, r') := pick endVowels 'a' r5
        (withEnd ++ [ev], r')
    else (withEnd, r5)
  let trimmed := if length < fixed.length then fixed.take length else fixed
  let (f1, r7) := nextFloat r6
  let capped :=
    if f1 < 700 then trimmed.set 0 (upChar (trimmed.headD 'a'))
    else trimmed
  (capped, r7)

/-- The start-fragment selection of `generateName` (syllable, initial
consonant cluster + vowel, or consonant + vowel). -/
def nameStart (f0 : Nat) (r2 : Rng) : Str × Rng :=
  if f0 < 500 then pick commonSyllables (r"al").toList r2
  else if f0 < 800 then
    let (cl, ra) := pick initialConsonantClusters (r"bl").toList r2
    let (v, rb) := pick vowels 'a' ra
    (cl ++ [v], rb)
  else
    let (c, ra) := pick consonants 'b' r2
    let (v, rb) := pick vowels 'a' ra
    ([c, v], rb)

/-- The body of `generateName` once the target length has been drawn:
start fragment, build loop, then `nameFinish`. -/
def nameFromLength (length : Nat) (r1 : Rng) : Str × Rng :=
  let (f0, r2) := nextFloat r1
  let (start, r3) := nameStart f0 r2
  let (built, r4) := buildNameLoop length length start r3
  nameFinish length built r4

/-- `generateName` of alias.go. -/
def generateName (minLength maxLength : Nat) (r : Rng) : Except GenErr (Str × Rng) :=
  let minL1 := if minLength = 0 then defaultMinNameLength else minLength
  let maxL1 := if maxLength = 0 then defaultMaxNameLength else maxLength
  let (minL, maxL) := if maxL1 < minL1 then (maxL1, minL1) else (minL1, maxL1)
  match randBetween minL maxL r with
  | .error e => .error e
  | .ok (length, r1) => .ok (nameFromLength length r1)

/-- The per-character mutation loop of `generateNameVariation`. -/
def mutateLoop : Nat → Str → Rng → Str × Rng
  | 0, runes, r => (runes, r)
  | n + 1, runes, r =>
    let (pos, r1) := intn runes.length r
    let c := runes.getD pos 'a'
    let (nc, r2) := if isVowel c then pick vowels 'a' r1 else pick consonants 'b' r1
    mutateLoop n (runes.set pos nc) r2

/-- `generateNameVariation` of alias.go.  The change ratio is in
thousandths; Go computes `int(float64(len) * ratio)` with binary floats,
which can differ from exact truncation by one at some lengths — no
theorem below depends on the exact count. -/
def generateNameVariation (baseName : Str) (changeRate : Nat) (r : Rng) : Str × Rng :=
  let changesToMake := baseName.length * changeRate / 1000
  let (runes1, r1) := mutateLoop changesToMake baseName r
  let (f1, r2) := nextFloat r1
  let (runes2, r3) :=
    if f1 < 300 ∧ 3 < runes1.length then
      let (pos, r') := intn runes1.length r2
      (runes1.take pos ++ runes1.drop (pos + 1), r')
    else
      let (f2, r') := nextFloat r2
      if f2 < 300 then
        let (pos, r'') := intn runes1.length r'
        let cAt := runes1.getD pos 'a'
        let (nc, rb) := if isVowel cAt then pick consonants 'b' r'' else pick vowels 'a' r''
        (runes1.take pos ++ nc :: runes1.drop pos, rb)
      else (runes1, r')
  let res :=
    runes2.set 0
      (if isUpperChar (baseName.headD 'a') then upChar (runes2.headD 'a')
       else lowChar (runes2.headD 'a'))
  (res, r3)

/-- The padding loop of `generateNameWithLength` (append one
opposite-class character until the minimum is reached). -/
def padLoop : Nat → Str → Rng → Str × Rng
  | 0, runes, r => (runes, r)
  | n + 1, runes, r =>
    let lastIsVowel := isVowel (runes.getD (runes.length - 1) 'a')
    let (nc, r') := if lastIsVowel then pick consonants 'b' r else pick vowels 'a' r
    padLoop n (runes ++ [nc]) r'

/-- The downward boundary scan of `generateNameWithLength`
(`for i := max; i >= min; i--`, first vowel→consonant boundary). -/
def trimScan (runes : Str) (minL : Nat) : Nat → Option Nat
  | 0 => none
  | j + 1 =>
    if j + 1 < minL then none
    else if isVowel (runes.getD j 'a') ∧ ¬(isVowel (runes.getD (j + 1) 'a') = true) ∧ j + 1 < runes.length then
      some (j + 1)
    else trimScan runes minL j

/-- `generateNameWithLength` of alias.go. -/
def generateNameWithLength (baseName : Str) (changeRate minLength maxLength : Nat) (r : Rng) : Str × Rng :=
  let (variation, r1) := generateNameVariation baseName changeRate r
  if minLength ≤ variation.length ∧ variation.length ≤ maxLength then (variation, r1)
  else
    let (padded, r2) :=
      if variation.length < minLength then padLoop (minLength - variation.length) variation r1
      else (variation, r1)
    let trimmed :=
      if maxLength < padded.length then
        padded.take ((trimScan padded minLength maxLength).getD maxLength)
      else padded
    (trimmed, r2)

-- Template identification and coordination

/-- `identifyNameTypes` of alias.go.  The Go map of name-type keys is
modelled as a duplicate-free list; iteration order of the Go map is
unspecified, the model fixes the insertion order (bare checks in source
order, then the regex scan). -/
def identifyNameTypes (pattern : Str) : List Str :=
  let bare :=
    (if containsStr pattern FirstNamePattern then [FirstNamePattern] else []) ++
    (if containsStr pattern LastNamePattern then [LastNamePattern] else []) ++
    (if containsStr pattern MiddleNamePattern then [MiddleNamePattern] else []) ++
    (if containsStr pattern NicknamePattern then [NicknamePattern] else []) ++
    (if containsStr pattern NamesPattern then [NamesPattern] else [])
  let toks := findAllTokens pattern.length pattern
  toks.foldl
    (fun acc tk =>
      if tk.typ ∈ nameTypeNames then
        let k := '{' :: tk.typ ++ ['}']
        if k ∈ acc then acc else acc ++ [k]
      else acc)
    bare

/-- One key of the coordination branch of `generateCoordinatedNames`
(`none` when the Go switch assigns nothing for this key). -/
def coordOne (baseName key : Str) (r : Rng) : Option (Str × Str) × Rng :=
  match findFirstTokenSplit key with
  | some (tk, _) =>
    let maxL0 := match tk.n2 with | some m => m | none => tk.n1
    let (minLength, maxLength) := if maxL0 < tk.n1 then (maxL0, tk.n1) else (tk.n1, maxL0)
    if tk.typ = firstnameT then
      let (v, r') := generateNameWithLength baseName 300 minLength maxLength r
      (some (key, v), r')
    else if tk.typ = lastnameT then
      let (v, r') := generateNameWithLength baseName 500 minLength maxLength r
      (some (key, v), r')
    else if tk.typ = middlenameT then
      let (v, r') := generateNameWithLength baseName 700 minLength maxLength r
      (some (key, v), r')
    else if tk.typ = nicknameT then
      let (v, r') := generateNameWithLength baseName 400 minLength maxLength r
      (some (key, v), r')
    else if tk.typ = namesT then
      let (v, r') := generateNameWithLength baseName 200 minLength maxLength r
      (some (key, v), r')
    else (none, r)
  | none =>
    if key = FirstNamePattern then
      let (v, r') := generateNameVariation baseName 300 r
      (some (key, v), r')
    else if key = LastNamePattern then
      let (v, r') := generateNameVariation baseName 500 r
      (some (key, v), r')
    else if key = MiddleNamePattern then
      let (v, r') := generateNameVariation baseName 700 r
      (some (key, v), r')
    else if key = NicknamePattern then
      if 4 < baseName.length then
        let (i, r') := intn (baseName.length - 3) r
        (some (key, baseName.take (i + 3)), r')
      else (some (key, baseName), r)
    else if key = NamesPattern then (some (key, baseName), r)
    else (none, r)

/-- The single-name branch of `generateCoordinatedNames` (one direct
`generateName` per key). -/
def singleAssign : List Str → Rng → Except GenErr (List (Str × Str) × Rng)
  | [], r => .ok ([], r)
  | key :: rest, r =>
    let gen : Except GenErr (Str × Rng) :=
      match findFirstTokenSplit key with
      | some (tk, _) =>
        let maxL0 := match tk.n2 with | some m => m | none => tk.n1
        let (minLength, maxLength) := if maxL0 < tk.n1 then (maxL0, tk.n1) else (tk.n1, maxL0)
        generateName minLength maxLength r
      | none => generateName defaultMinNameLength defaultMaxNameLength r
    match gen with
    | .error e => .error e
    | .ok (v, r') =>
      match singleAssign rest r' with
      | .error e => .error e
      | .ok (lst, r2) => .ok ((key, v) :: lst, r2)

/-- `generateCoordinatedNames` of alias.go. -/
def generateCoordinatedNames (keys : List Str) (r : Rng) : Except GenErr (List (Str × Str) × Rng) :=
  if 1 < keys.length then
    match generateName defaultMinNameLength defaultMaxNameLength r with
    | .error e => .error e
    | .ok (baseName, r1) =>
      .ok (keys.foldl
        (fun acc key =>
          let (o, r') := coordOne baseName key acc.2
          (match o with
           | some kv => acc.1 ++ [kv]
           | none => acc.1, r'))
        ([], r1))
  else singleAssign keys r

-- The template expansion pipeline

/-- The regex resolution loop of `replaceTemplateVariables`
(`for { matches := lengthRegex.FindStringSubmatch(result); ... }`). -/
def replaceTokensLoop : Nat → Str → Rng → Except GenErr (Str × Rng)
  | fuel, s, r =>
    match findFirstTokenSplit s with
    | none => .ok (s, r)
    | some (tk, _) =>
      match fuel with
      | 0 => .error .fuelOut
      | n + 1 =>
        let maxL0 := match tk.n2 with | some m => m | none => tk.n1
        let (minL1, maxL1) := if maxL0 < tk.n1 then (maxL0, tk.n1) else (tk.n1, maxL0)
        let minLength := if minL1 = 0 then 1 else minL1
        let maxLength := if 50 < maxL1 then 50 else maxL1
        if tk.typ = wordsT then
          let (rep, r') := generateWords minLength r
          replaceTokensLoop n (replaceFirst s tk.full rep) r'
        else if tk.typ = wordCharsT then
          match randBetween minLength maxLength r with
          | .error e => .error e
          | .ok (len, r1) =>
            let (rep, r2) := generateWordChars len r1
            replaceTokensLoop n (replaceFirst s tk.full rep) r2
        else if tk.typ = charsT then
          match randBetween minLength maxLength r with
          | .error e => .error e
          | .ok (len, r1) =>
            let (rep, r2) := generateChars len r1
            replaceTokensLoop n (replaceFirst s tk.full rep) r2
        else if tk.typ ∈ nameTypeNames then
          match generateName minLength maxLength r with
          | .error e => .error e
          | .ok (rep, r1) => replaceTokensLoop n (replaceFirst s tk.full rep) r1
        else
          replaceTokensLoop n (replaceFirst s tk.full tk.full) r

/-- `processSimplePatterns` of alias.go (the bare-token loop). -/
def processSimplePatterns : Nat → Str → Rng → Except GenErr (Str × Rng)
  | fuel, s, r =>
    if containsStr s WordsPattern then
      match fuel with
      | 0 => .error .fuelOut
      | n + 1 =>
        let (rep, r') := generateWords defaultWordCount r
        processSimplePatterns n (replaceFirst s WordsPattern rep) r'
    else if containsStr s WordCharsPattern then
      match fuel with
      | 0 => .error .fuelOut
      | n + 1 =>
        let (rep, r') := generateWordChars defaultWordLength r
        processSimplePatterns n (replaceFirst s WordCharsPattern rep) r'
    else if containsStr s CharsPattern then
      match fuel with
      | 0 => .error .fuelOut
      | n + 1 =>
        let (rep, r') := generateChars defaultCharLength r
        processSimplePatterns n (replaceFirst s CharsPattern rep) r'
    else .ok (s, r)

/-- `replaceTemplateVariables` of alias.go: name substitution (the Go
map iteration is modelled in list order), the regex loop, then the bare
patterns. -/
def replaceTemplateVariables (fuel : Nat) (pattern : Str) (nameValues : List (Str × Str)) (r : Rng) :
    Except GenErr (Str × Rng) :=
  let s0 := nameValues.foldl (fun acc kv => replaceAll acc kv.1 kv.2) pattern
  match replaceTokensLoop fuel s0 r with
  | .error e => .error e
  | .ok (s1, r1) => processSimplePatterns fuel s1 r1

/-- `GenerateAlias` of alias.go. -/
def GenerateAlias (fuel : Nat) (email pattern : Str) (r : Rng) : Except GenErr (Str × Rng) :=
  if email = [] ∨ pattern = [] then .error .emptyInput
  else
    let parts := splitChar '@' email
    if parts.length ≠ 2 then .error .invalidEmail
    else
      let domain := parts.getD 1 []
      let nameTypes := identifyNameTypes pattern
      match generateCoordinatedNames nameTypes r with
      | .error e => .error e
      | .ok (nameValues, r1) =>
        match replaceTemplateVariables fuel pattern nameValues r1 with
        | .error e => .error e
        | .ok (processed, r2) =>
          let final :=
            if containsStr processed DomainPlaceholder then replaceAll processed DomainPlaceholder domain
            else processed
          .ok (final, r2)

-- The credential-cache auth module (auth package)

/-- Authentication errors surfaced by `Authenticate`. -/
inductive AuthErr where
  | unsupportedMethod
  | verifyFailed
deriving Repr, DecidableEq

/-- `AuthModule` (the fields the cache logic reads; durations in
seconds, instants as naturals). -/
structure AuthModule where
  method : Str
  cacheTTL : Nat
  cache : List (Str × Nat)
deriving Repr, DecidableEq

/-- `IsCacheEnabled`. -/
def isCacheEnabled (a : AuthModule) : Bool := 0 < a.cacheTTL

/-- `hashCredentials`: sha256 of `username + ":" + password`, modelled
as the (injective) combined string itself. -/
def hashCredentials (username password : Str) : Str :=
  username ++ ':' :: password

/-- Go map read `a.cache[credHash]`. -/
def lookupCache : List (Str × Nat) → Str → Option Nat
  | [], _ => none
  | kv :: rest, k => if kv.1 = k then some kv.2 else lookupCache rest k

/-- Go map write `a.cache[credHash] = AuthCache{Expiry: v}`. -/
def setCache (cache : List (Str × Nat)) (k : Str) (v : Nat) : List (Str × Nat) :=
  if cache.any (fun kv => kv.1 = k) then
    cache.map (fun kv => if kv.1 = k then (k, v) else kv)
  else cache ++ [(k, v)]

/-- Does the cache hold an unexpired entry for this key
(`found && time.Now().Before(cacheEntry.Expiry)`)? -/
def cacheHasValidB (cache : List (Str × Nat)) (k : Str) (now : Nat) : Bool :=
  match lookupCache cache k with
  | some exp => now < exp
  | none => false

def imapStr : Str := (r"IMAP").toList
def smtpStr : Str := (r"SMTP").toList

/-- `Authenticate` of the auth package.  The remote IMAP/SMTP round trip
is the oracle `verify`; the result triple is
(result, new module state, whether the remote verifier was contacted).
The two `time.Now()` reads of one call are modelled as a single `now`. -/
def authenticate (st : AuthModule) (verify : Str → Str → Bool) (now : Nat)
    (username password : Str) : Except AuthErr Unit × AuthModule × Bool :=
  let credHash := hashCredentials username password
  let cachedOk := isCacheEnabled st && cacheHasValidB st.cache credHash now
  if cachedOk then (.ok (), st, false)
  else
    let m := toUpperStr st.method
    if m = imapStr ∨ m = smtpStr then
      if verify username password then
        let st' :=
          if isCacheEnabled st then
            { st with cache := setCache st.cache credHash (now + st.cacheTTL) }
          else st
        (.ok (), st', true)
      else (.error .verifyFailed, st, true)
    else (.error .unsupportedMethod, st, false)

/-- The sweep loop of `CleanupCache` (`if now.After(entry.Expiry)` means
strict `entry.Expiry < now`). -/
def cleanupLoop : List (Str × Nat) → Nat → Nat × List (Str × Nat)
  | [], _ => (0, [])
  | kv :: rest, now =>
    let (cnt, kept) := cleanupLoop rest now
    if kv.2 < now then (cnt + 1, kept) else (cnt, kv :: kept)

/-- `CleanupCache` of the auth package. -/
def cleanupCache (st : AuthModule) (now : Nat) : Nat × AuthModule :=
  if isCacheEnabled st then
    let (cnt, kept) := cleanupLoop st.cache now
    (cnt, { st with cache := kept })
  else (0, st)

/-- `CacheStats` of the auth package. -/
def cacheStats (st : AuthModule) (now : Nat) : Nat × Nat :=
  if isCacheEnabled st then
    (st.cache.length, (st.cache.filter (fun kv => now < kv.2)).length)
  else (0, 0)

-- Concrete inputs and random streams used by the claim theorems

def emailEx : Str := (r"user@example.com").toList

/-- A pattern whose only token has an unrecognized type with a length
qualifier. -/
def fooPattern : Str := (r"{foo:5}").toList

/-- A pattern whose token requests an exact length above the ceiling. -/
def chars55Pattern : Str := (r"{chars:55}").toList

/-- The pattern of the qualified-name coordination claim. -/
def coordPattern : Str := (r"{firstname:4,8}.{lastname}").toList

/-- Alphabetic characters (both cases). -/
def upperLetters : Str := (r"ABCDEFGHIJKLMNOPQRSTUVWXYZ").toList

def isAlphaChar (c : Char) : Bool := letterChars.contains c || upperLetters.contains c

def isAlphaStr (s : Str) : Bool := s.all isAlphaChar

/-- Is the outcome one of the two up-front input-validation errors? -/
def isInputError : Except GenErr (Str × Rng) → Bool
  | .error .emptyInput => true
  | .error .invalidEmail => true
  | _ => false

/-- A random stream driving `generateName 10 10` to a length-8 result:
start = consonant+vowel "ba", six alternating single-character steps up
to length 8, five ending draws that all pick the 3-character ending
"ane" (which does not fit), no final capitalization. -/
def csNameShort : Rng := [800, 0, 0, 600, 0, 600, 0, 600, 0, 600, 0, 600, 0, 600, 0, 3, 3, 3, 3, 3, 700]

/-- A random stream driving `generateWordsList 2 2` to a compound first
word: first word takes the 70% adjective+noun branch at indices 0/0,
second word takes a single adjective. -/
def csWordsCompound : Rng := [0, 0, 0, 999, 0, 0]

/-- The value that the coordination stage assigns to a single bare name
occurrence (the first projection of `generateName 3 10`). -/
def coordValue (r : Rng) : Str :=
  match generateName defaultMinNameLength defaultMaxNameLength r with
  | .ok (s, _) => s
  | .error _ => []

/-- The stream state after the coordination stage of a single bare name
occurrence. -/
def coordRest (r : Rng) : Rng :=
  match generateName defaultMinNameLength defaultMaxNameLength r with
  | .ok (_, t) => t
  | .error _ => r

-- Concrete instances used by the witness theorems

def u0 : Str := (r"u").toList
def p0 : Str := (r"p").toList

/-- A module whose cache holds an unexpired entry for (u0, p0). -/
def stHit : AuthModule :=
  { method := imapStr, cacheTTL := 300, cache := [(hashCredentials u0 p0, 500)] }

/-- A module with an empty cache. -/
def stMiss : AuthModule := { method := imapStr, cacheTTL := 300, cache := [] }

/-- A module with one entry expiring at instant 500. -/
def stClean : AuthModule := { method := imapStr, cacheTTL := 300, cache := [(u0, 500)] }

/-- A remote verifier that accepts everything. -/
def verifyYes : Str → Str → Bool := fun _ _ => true

-- Helper lemmas

theorem getD_mem_or {α : Type} (l : List α) (i : Nat) (d : α) :
    l.getD i d ∈ l ∨ l.getD i d = d := by
  induction l generalizing i with
  | nil => right; rfl
  | cons x t ih =>
    cases i with
    | zero => left; simp [List.getD]
    | succ j =>
      rcases ih j with h | h
      · left
        simpa [List.getD] using List.mem_cons_of_mem x (by simpa [List.getD] using h)
      · right; simpa [List.getD] using h

theorem pick_mem_or {α : Type} (l : List α) (d : α) (r : Rng) :
    (pick l d r).1 ∈ l ∨ (pick l d r).1 = d := by
  unfold pick intn nextN
  cases r <;> exact getD_mem_or l _ d

theorem splitChar_ne_nil (c : Char) (s : Str) : splitChar c s ≠ [] := by
  induction s with
  | nil => simp [splitChar]
  | cons x t ih =>
    by_cases h : x = c
    · simp [splitChar, h]
    · simp only [splitChar, if_neg h]
      rcases hs : splitChar c t with _ | ⟨hd, rest⟩
      · exact absurd hs ih
      · simp

theorem splitChar_length (c : Char) (s : Str) :
    (splitChar c s).length = countChar c s + 1 := by
  induction s with
  | nil => simp [splitChar, countChar]
  | cons x t ih =>
    by_cases h : x = c
    · simp [splitChar, countChar, h, List.filter] at *
      omega
    · simp only [splitChar, if_neg h]
      rcases hs : splitChar c t with _ | ⟨hd, rest⟩
      · exact absurd hs (splitChar_ne_nil c t)
      · have := ih
        rw [hs] at this
        simp [countChar, List.filter, h] at *
        omega

-- C1

/-- C1: template expansion does NOT always terminate — on the pattern
`{foo:5}` (an unrecognized placeholder type with a length qualifier) the
resolution loop replaces the token by itself and rescans forever, so for
every fuel the expansion reports fuel exhaustion: the Go loop diverges
instead of leaving the token untouched and returning. -/
theorem generateAlias_unknown_qualified_diverges (fuel : Nat) (r : Rng) :
    GenerateAlias fuel emailEx fooPattern r = .error .fuelOut := by
  have hloop : ∀ n r0, replaceTokensLoop n fooPattern r0 = .error GenErr.fuelOut := by
    intro n
    induction n with
    | zero => intro r0; rfl
    | succ m ih => intro r0; exact ih r0
  have hrep : replaceTemplateVariables fuel fooPattern [] r = .error GenErr.fuelOut := by
    show (match replaceTokensLoop fuel fooPattern r with
          | .error e => (.error e : Except GenErr (Str × Rng))
          | .ok (s1, r1) => processSimplePatterns fuel s1 r1) = .error GenErr.fuelOut
    rw [hloop fuel r]
  have hchain : GenerateAlias fuel emailEx fooPattern r =
      (match replaceTemplateVariables fuel fooPattern [] r with
       | .error e => (.error e : Except GenErr (Str × Rng))
       | .ok (processed, r2) =>
          .ok (if containsStr processed DomainPlaceholder then
                 replaceAll processed DomainPlaceholder ((r"example.com").toList)
               else processed, r2)) := rfl
  rw [hchain, hrep]

-- C2

/-- C2: length-qualified resolution is NOT total — the token `{chars:55}`
clamps only the maximum to 50, leaving min = 55 > max = 50, and
`randBetween 55 50` reaches Go's `Intn(-4)` panic; the expansion faults
at the very first loop iteration for every positive fuel. -/
theorem generateAlias_chars55_panics (fuel : Nat) (r : Rng) :
    GenerateAlias (fuel + 1) emailEx chars55Pattern r = .error .intnFault := by
  have hrep : replaceTemplateVariables (fuel + 1) chars55Pattern [] r = .error GenErr.intnFault := rfl
  have hchain : GenerateAlias (fuel + 1) emailEx chars55Pattern r =
      (match replaceTemplateVariables (fuel + 1) chars55Pattern [] r with
       | .error e => (.error e : Except GenErr (Str × Rng))
       | .ok (processed, r2) =>
          .ok (if containsStr processed DomainPlaceholder then
                 replaceAll processed DomainPlaceholder ((r"example.com").toList)
               else processed, r2)) := rfl
  rw [hchain, hrep]

-- C6

/-- C6: an empty address, an empty pattern, or an address whose number
of at-signs differs from one is rejected up front with one of the two
input-validation errors, and no alias is produced. -/
theorem generateAlias_rejects_bad_input (fuel : Nat) (email pattern : Str) (r : Rng)
    (h : email = [] ∨ pattern = [] ∨ countChar '@' email ≠ 1) :
    isInputError (GenerateAlias fuel email pattern r) = true := by
  by_cases h0 : email = [] ∨ pattern = []
  · unfold GenerateAlias
    rw [if_pos h0]
    rfl
  · have hcnt : countChar '@' email ≠ 1 := by tauto
    unfold GenerateAlias
    rw [if_neg h0]
    have hlen : (splitChar '@' email).length ≠ 2 := by
      rw [splitChar_length]
      omega
    rw [if_pos hlen]
    rfl

-- C7

/-- C7: with caching enabled and a supported method, `Authenticate`
contacts the remote verifier exactly when the cache holds no unexpired
entry for the credential hash; an unexpired hit returns success (and the
full result is determined by the hit/oracle outcome). -/
theorem authenticate_cache_gates_remote (st : AuthModule) (verify : Str → Str → Bool)
    (now : Nat) (u p : Str)
    (ht : 0 < st.cacheTTL)
    (hm : toUpperStr st.method = imapStr ∨ toUpperStr st.method = smtpStr) :
    (authenticate st verify now u p).2.2
      = !(cacheHasValidB st.cache (hashCredentials u p) now)
    ∧ (authenticate st verify now u p).1
      = (if cacheHasValidB st.cache (hashCredentials u p) now then .ok ()
         else if verify u p then .ok () else .error .verifyFailed) := by
  have he : isCacheEnabled st = true := by simp [isCacheEnabled, ht]
  by_cases hc : cacheHasValidB st.cache (hashCredentials u p) now = true
  · constructor <;> simp [authenticate, he, hc]
  · have hc' : cacheHasValidB st.cache (hashCredentials u p) now = false :=
      Bool.eq_false_iff.mpr hc
    by_cases hv : verify u p = true
    · rcases hm with hm | hm <;> constructor <;> simp [authenticate, he, hc', hm, hv]
    · have hv' : verify u p = false := Bool.eq_false_iff.mpr hv
      rcases hm with hm | hm <;> constructor <;> simp [authenticate, he, hc', hm, hv']

-- C8

/-- C8: the credential cache changes only on a call that contacted the
remote verifier and got a success; contrapositively every failing
`Authenticate` call leaves the cache untouched. -/
theorem authenticate_cache_changes_only_on_success (st : AuthModule)
    (verify : Str → Str → Bool) (now : Nat) (u p : Str)
    (hch : (authenticate st verify now u p).2.1.cache ≠ st.cache) :
    (authenticate st verify now u p).1 = .ok ()
    ∧ (authenticate st verify now u p).2.2 = true
    ∧ verify u p = true := by
  by_cases hc : (isCacheEnabled st && cacheHasValidB st.cache (hashCredentials u p) now) = true
  · exfalso
    apply hch
    simp [authenticate, hc]
  · have hc' := Bool.eq_false_iff.mpr hc
    by_cases hm : toUpperStr st.method = imapStr ∨ toUpperStr st.method = smtpStr
    · by_cases hv : verify u p = true
      · refine ⟨?_, ?_, hv⟩ <;> simp [authenticate, hc', hm, hv]
      · exfalso
        apply hch
        have hv' : verify u p = false := Bool.eq_false_iff.mpr hv
        simp [authenticate, hc', hm, hv']
    · exfalso
      apply hch
      simp [authenticate, hc', hm]

-- C9

theorem cleanupLoop_spec (l : List (Str × Nat)) (now : Nat) :
    cleanupLoop l now
      = ((l.filter (fun kv => decide (kv.2 < now))).length,
         l.filter (fun kv => !decide (kv.2 < now))) := by
  induction l with
  | nil => rfl
  | cons kv rest ih =>
    by_cases h : kv.2 < now <;> simp [cleanupLoop, ih, List.filter, h]

/-- C9: with caching enabled, `CleanupCache` removes exactly the entries
whose expiry lies strictly in the past and returns their number; in
particular with no expired entry it returns 0 and leaves the cache
unchanged. -/
theorem cleanupCache_removes_exactly_expired (st : AuthModule) (now : Nat)
    (ht : 0 < st.cacheTTL) :
    (cleanupCache st now).1 = (st.cache.filter (fun kv => decide (kv.2 < now))).length
    ∧ (cleanupCache st now).2
      = { st with cache := st.cache.filter (fun kv => !decide (kv.2 < now)) } := by
  have he : isCacheEnabled st = true := by simp [isCacheEnabled, ht]
  constructor <;> simp [cleanupCache, he, cleanupLoop_spec]

-- C4 counterexample

/-- C4 counterexample: `generateName 10 10` — the resolution of a token
requesting the exact length 10 — can return a string of length 8: the
build loop stops at `length-2` and all five ending draws pick a
3-character ending that does not fit. -/
theorem generateName_misses_exact_length :
    generateName 10 10 csNameShort = .ok ((r"babababa").toList, [])
    ∧ ((r"babababa").toList).length ≠ 10 := by
  exact ⟨rfl, by decide⟩

-- C5 counterexample

/-- C5 counterexample: with two words requested, the generator can still
take the 70% compound branch — the first produced word "amberapple" is
an adjective+noun concatenation belonging to neither vocabulary, so for
count 2 the words are not each drawn from one vocabulary. -/
theorem generateWords_compound_at_two :
    (generateWordsList 2 2 csWordsCompound).1
        = [(r"amberapple").toList, (r"amber").toList]
    ∧ (generateWords 2 csWordsCompound).1 = (r"amberapple.amber").toList
    ∧ ¬((r"amberapple").toList ∈ adjectives)
    ∧ ¬((r"amberapple").toList ∈ commonNouns) := by
  refine ⟨rfl, rfl, by decide, by decide⟩

-- C3

theorem identifyNameTypes_keys_bare_aux (toks : List Token) (acc : List Str)
    (hacc : ∀ x ∈ acc, x ∈ [FirstNamePattern, LastNamePattern, MiddleNamePattern, NicknamePattern, NamesPattern]) :
    ∀ k ∈ toks.foldl
      (fun acc tk =>
        if tk.typ ∈ nameTypeNames then
          let k := '{' :: tk.typ ++ ['}']
          if k ∈ acc then acc else acc ++ [k]
        else acc)
      acc,
    k ∈ [FirstNamePattern, LastNamePattern, MiddleNamePattern, NicknamePattern, NamesPattern] := by
  induction toks generalizing acc with
  | nil => simpa using hacc
  | cons tk rest ih =>
    intro k hk
    refine ih _ ?_ k hk
    intro x hx
    by_cases hmem : tk.typ ∈ nameTypeNames
    · simp only [hmem, if_true] at hx
      by_cases hin : ('{' :: tk.typ ++ ['}']) ∈ acc
      · rw [if_pos hin] at hx
        exact hacc x hx
      · rw [if_neg hin] at hx
        rcases List.mem_append.mp hx with hx | hx
        · exact hacc x hx
        · have hx' : x = '{' :: tk.typ ++ ['}'] := by simpa using hx
          subst hx'
          rcases (by simpa [nameTypeNames] using hmem :
              tk.typ = firstnameT ∨ tk.typ = lastnameT ∨ tk.typ = middlenameT ∨
              tk.typ = nicknameT ∨ tk.typ = namesT) with h | h | h | h | h <;>
            simp [h, FirstNamePattern, LastNamePattern, MiddleNamePattern, NicknamePattern,
              NamesPattern, firstnameT, lastnameT, middlenameT, nicknameT, namesT]
    · simp only [hmem, if_false] at hx
      exact hacc x hx

/-- C3: every key that `identifyNameTypes` hands to the name coordinator
is one of the five bare patterns and carries no length qualifier
(`findFirstTokenSplit k = none`), so the coordinator's
qualified-occurrence branch — the only one that sizes a base-derived
mutation by the occurrence's own qualifier — can never fire, and a
qualified name token such as `{firstname:4,8}` is instead resolved later
by an independent `generateName`. -/
theorem identifyNameTypes_keys_unqualified (p k : Str) (hk : k ∈ identifyNameTypes p) :
    findFirstTokenSplit k = none := by
  have hone : ∀ (c : Prop) (inst : Decidable c) (y x : Str), x ∈ (if c then [y] else []) → x = y := by
    intro c inst y x hxy
    split at hxy
    · simpa using hxy
    · simp at hxy
  have hmem : k ∈ [FirstNamePattern, LastNamePattern, MiddleNamePattern, NicknamePattern, NamesPattern] := by
    refine identifyNameTypes_keys_bare_aux _ _ ?_ k hk
    intro x hx
    simp only [List.mem_append] at hx
    rcases hx with ((((hx | hx) | hx) | hx) | hx)
    · rw [hone _ _ _ _ hx]; simp
    · rw [hone _ _ _ _ hx]; simp
    · rw [hone _ _ _ _ hx]; simp
    · rw [hone _ _ _ _ hx]; simp
    · rw [hone _ _ _ _ hx]; simp
  fin_cases hmem <;> rfl

-- C5 amended theorem

theorem generateWordsList_vocab (n count : Nat) (r : Rng) (w : Str)
    (hcount : 3 ≤ count) (hw : w ∈ (generateWordsList n count r).1) :
    w ∈ adjectives ∨ w ∈ commonNouns := by
  induction n generalizing r with
  | zero => simp [generateWordsList] at hw
  | succ m ih =>
    have hnc : ¬((nextFloat r).1 < 700 ∧ count < 3) := by omega
    simp only [generateWordsList, hnc, if_false] at hw
    rcases List.mem_cons.mp hw with hw | hw
    · subst hw
      by_cases hf : (nextFloat (nextFloat r).2).1 < 500
      · simp only [hf, if_true]
        rcases pick_mem_or adjectives ((r"amber").toList) (nextFloat (nextFloat r).2).2 with h | h
        · exact Or.inl h
        · rw [h]; left; decide
      · simp only [hf, if_false]
        rcases pick_mem_or commonNouns ((r"apple").toList) (nextFloat (nextFloat r).2).2 with h | h
        · exact Or.inr h
        · rw [h]; right; decide
    · exact ih _ hw

/-- C5 (amended): for three or more requested words every produced word
is a single word drawn from one of the two fixed vocabularies; the 70%
compound adjective+noun concatenation is possible whenever fewer than
three words are requested (one or two), not only for exactly one. -/
theorem generateWords_vocab_from_three (count : Nat) (r : Rng) (w : Str)
    (hcount : 3 ≤ count) (hw : w ∈ (generateWordsList count count r).1) :
    w ∈ adjectives ∨ w ∈ commonNouns :=
  generateWordsList_vocab count count r w hcount hw

-- C4 amended theorem: length lemmas

set_option maxRecDepth 8192

theorem pickSyl_pos (r : Rng) : 1 ≤ ((pick commonSyllables ((r"al").toList) r).1).length := by
  rcases pick_mem_or commonSyllables ((r"al").toList) r with h | h
  · have hall : ∀ x ∈ commonSyllables, 1 ≤ x.length := by decide
    exact hall _ h
  · rw [h]; decide

theorem buildNameLoop_lower (fuel length : Nat) (res : Str) (r : Rng)
    (hf : length - res.length ≤ fuel) :
    length - 2 ≤ ((buildNameLoop fuel length res r).1).length := by
  induction fuel generalizing res r with
  | zero =>
    simp only [buildNameLoop]
    omega
  | succ n ih =>
    simp only [buildNameLoop]
    by_cases hg : res.length < length - 2
    · rw [if_pos hg]
      have hsyl := pickSyl_pos (nextFloat r).2
      split
      · split
        · refine ih _ _ ?_
          simp only [List.length_append]
          omega
        · split <;>
            (refine ih _ _ ?_
             simp only [List.length_append, List.length_singleton]
             omega)
      · split <;>
          (refine ih _ _ ?_
           simp only [List.length_append, List.length_singleton]
           omega)
    · rw [if_neg hg]
      show length - 2 ≤ res.length
      omega

theorem endingTries_mono (n length : Nat) (res : Str) (r : Rng) :
    res.length ≤ ((endingTries n length res r).1).length := by
  induction n generalizing r with
  | zero => simp [endingTries]
  | succ m ih =>
    simp only [endingTries]
    split
    · simp [List.length_append]
    · exact ih _

theorem trim_bounds (length : Nat) (fixed : Str) (h : length - 2 ≤ fixed.length) :
    length - 2 ≤ (if length < fixed.length then fixed.take length else fixed).length
    ∧ (if length < fixed.length then fixed.take length else fixed).length ≤ length := by
  split
  · simp only [List.length_take]
    omega
  · omega

theorem nameFinish_bounds (length : Nat) (built : Str) (r : Rng)
    (hb : length - 2 ≤ built.length) :
    length - 2 ≤ ((nameFinish length built r).1).length
    ∧ ((nameFinish length built r).1).length ≤ length := by
  unfold nameFinish
  split
  next withEnd r5 heq =>
  have hwe : length - 2 ≤ withEnd.length := by
    split at heq
    · have hm := endingTries_mono 5 length built r
      rw [heq] at hm
      simp only at hm
      omega
    · cases heq
      omega
  split
  next fixed r6 heq2 =>
  have hfix : length - 2 ≤ fixed.length := by
    split at heq2
    · by_cases hv : isVowel (withEnd.getLastD 'a') = true
      · rw [if_pos hv] at heq2
        rcases hpk : pick endConsonants ((r"n").toList) r5 with ⟨ec, rc⟩
        rw [hpk] at heq2
        dsimp only at heq2
        by_cases hth : ec = (r"th").toList
        · rw [if_pos hth] at heq2
          by_cases hfits : withEnd.length + 2 ≤ length
          · rw [if_pos hfits] at heq2
            cases heq2
            simp only [List.length_append]
            omega
          · rw [if_neg hfits] at heq2
            cases heq2
            simp only [List.length_append]
            omega
        · rw [if_neg hth] at heq2
          cases heq2
          simp only [List.length_append]
          omega
      · rw [if_neg hv] at heq2
        rcases hpk : pick endVowels 'a' r5 with ⟨ev, rc⟩
        rw [hpk] at heq2
        dsimp only at heq2
        cases heq2
        simp only [List.length_append, List.length_singleton]
        omega
    · cases heq2
      omega
  have htr := trim_bounds length fixed hfix
  have hset : ∀ (t : Str) (f : Nat),
      (if f < 700 then t.set 0 (upChar (t.headD 'a')) else t).length = t.length := by
    intro t f
    split <;> simp
  all_goals first
    | exact htr
    | (rw [hset, hset]; exact htr)
    | (rw [hset]; exact htr)

theorem nameFromLength_bounds (L : Nat) (r : Rng) :
    L - 2 ≤ ((nameFromLength L r).1).length ∧ ((nameFromLength L r).1).length ≤ L := by
  have key : ∀ (start : Str) (r3 : Rng),
      L - 2 ≤ ((nameFinish L (buildNameLoop L L start r3).1 (buildNameLoop L L start r3).2).1).length
      ∧ ((nameFinish L (buildNameLoop L L start r3).1 (buildNameLoop L L start r3).2).1).length ≤ L := by
    intro start r3
    exact nameFinish_bounds L _ _ (buildNameLoop_lower L L start r3 (Nat.sub_le L start.length))
  unfold nameFromLength
  first
    | exact key _ _
    | (split <;> first
        | exact key _ _
        | (split <;> exact key _ _))

theorem randBetween_bounds (lo hi v : Nat) (r rest : Rng)
    (h : randBetween lo hi r = .ok (v, rest)) : lo ≤ v ∧ v ≤ hi := by
  unfold randBetween at h
  split at h
  · rename_i heq
    cases h
    omega
  · split at h
    · cases h
    · rename_i hne hge
      cases h
      have hm : (nextN r).1 % (hi - lo + 1) < hi - lo + 1 :=
        Nat.mod_lt _ (Nat.succ_pos _)
      omega

theorem generateName_ok_bounds (lo hi : Nat) (s : Str) (r rest : Rng)
    (hlo : 1 ≤ lo) (hlohi : lo ≤ hi)
    (h : generateName lo hi r = .ok (s, rest)) :
    lo - 2 ≤ s.length ∧ s.length ≤ hi := by
  unfold generateName at h
  rw [if_neg (by omega : ¬ lo = 0), if_neg (by omega : ¬ hi = 0)] at h
  dsimp only at h
  rw [if_neg (by omega : ¬ hi < lo)] at h
  dsimp only at h
  split at h
  · cases h
  · rename_i L r1 heq
    injection h with h2
    have hs : s = (nameFromLength L r1).1 := by rw [h2]
    rw [hs]
    have hrb := randBetween_bounds lo hi L r r1 heq
    have hnb := nameFromLength_bounds L r1
    constructor <;> omega

theorem generateRandomChars_length (cs : Str) (n : Nat) (r : Rng) :
    ((generateRandomChars cs n r).1).length = n := by
  induction n generalizing r with
  | zero => simp [generateRandomChars]
  | succ m ih => simp [generateRandomChars, ih]

theorem alpha_of_letter (x : Char) (hx : x ∈ letterChars) : isAlphaChar x = true := by
  have hall : ∀ y ∈ letterChars, isAlphaChar y = true := by decide
  exact hall x hx

theorem generateWordChars_spec (len : Nat) (r : Rng) (hlen : 1 ≤ len) :
    ((generateWordChars len r).1).length = len
    ∧ isAlphaChar (((generateWordChars len r).1).headD '0') = true := by
  unfold generateWordChars
  have hc0 : isAlphaChar ((pick letterChars 'a' r).1) = true := by
    rcases pick_mem_or letterChars 'a' r with h | h
    · exact alpha_of_letter _ h
    · rw [h]; decide
  rcases hpk : pick letterChars 'a' r with ⟨c0, r1⟩
  rw [hpk] at hc0
  rw [if_neg (by omega : ¬ len = 0)]
  dsimp only
  by_cases h1 : 1 < len
  · rw [if_pos h1]
    rcases hrc : generateRandomChars wordCharsAllowed (len - 1) r1 with ⟨rest, r2⟩
    have hrl := generateRandomChars_length wordCharsAllowed (len - 1) r1
    rw [hrc] at hrl
    dsimp only
    constructor
    · simp only [List.length_cons]
      simp only at hrl
      omega
    · simpa using hc0
  · rw [if_neg h1]
    constructor
    · simp only [List.length_singleton]
      omega
    · simpa using hc0

theorem generateChars_spec (len : Nat) (r : Rng) (hlen : 1 ≤ len) :
    ((generateChars len r).1).length = len
    ∧ isAlphaChar (((generateChars len r).1).headD '0') = true := by
  unfold generateChars
  have hc0 : isAlphaChar ((pick letterChars 'a' r).1) = true := by
    rcases pick_mem_or letterChars 'a' r with h | h
    · exact alpha_of_letter _ h
    · rw [h]; decide
  rcases hpk : pick letterChars 'a' r with ⟨c0, r1⟩
  rw [hpk] at hc0
  rw [if_neg (by omega : ¬ len = 0)]
  dsimp only
  by_cases h1 : 1 < len
  · rw [if_pos h1]
    rcases hrc : generateRandomChars allCharsAllowed (len - 1) r1 with ⟨rest, r2⟩
    have hrl := generateRandomChars_length allCharsAllowed (len - 1) r1
    rw [hrc] at hrl
    dsimp only
    constructor
    · simp only [List.length_cons]
      simp only at hrl
      omega
    · simpa using hc0
  · rw [if_neg h1]
    constructor
    · simp only [List.length_singleton]
      omega
    · simpa using hc0

/-- C4 (amended): for a length qualifier with 1 ≤ min ≤ max ≤ 50, the
alphanumeric and mixed-character generators honour the request exactly —
`randBetween` samples inside [min,max] and the generated string has
exactly the sampled (or exact requested) length with an alphabetic first
character — but the name-like generator may fall up to two characters
short of the requested minimum: its result length lies in [min−2, max]
rather than [min, max]. -/
theorem lengthQualifier_constraints (lo hi len v : Nat) (s : Str)
    (r1 r2 r3 r4 rest2 rest3 : Rng)
    (hlo : 1 ≤ lo) (hlohi : lo ≤ hi) (hhi : hi ≤ 50) (hlen : 1 ≤ len)
    (hrb : randBetween lo hi r2 = .ok (v, rest2))
    (hgn : generateName lo hi r3 = .ok (s, rest3)) :
    (((generateWordChars len r1).1).length = len
      ∧ isAlphaChar (((generateWordChars len r1).1).headD '0') = true)
    ∧ (((generateChars len r4).1).length = len
      ∧ isAlphaChar (((generateChars len r4).1).headD '0') = true)
    ∧ (lo ≤ v ∧ v ≤ hi)
    ∧ (lo - 2 ≤ s.length ∧ s.length ≤ hi) :=
  ⟨generateWordChars_spec len r1 hlen, generateChars_spec len r4 hlen,
   randBetween_bounds lo hi v r2 rest2 hrb,
   generateName_ok_bounds lo hi s r3 rest3 hlo hlohi hgn⟩

-- C10: string-search and replacement infrastructure

theorem containsStr_cons (c : Char) (t pat : Str) :
    containsStr (c :: t) pat = (pat.isPrefixOf (c :: t) || containsStr t pat) := by
  rw [containsStr]
  split <;> simp [*]

theorem isPrefixOf_cons_ne (p c : Char) (ps t : Str) (h : p ≠ c) :
    (p :: ps).isPrefixOf (c :: t) = false := by
  simp [List.isPrefixOf, h]

theorem containsStr_of_infix (x pat y : Str) :
    containsStr (x ++ (pat ++ y)) pat = true := by
  induction x with
  | nil =>
    rcases pat with _ | ⟨p, ps⟩
    · rcases y with _ | ⟨d, ys⟩ <;> rfl
    · rw [List.nil_append, List.cons_append, containsStr_cons]
      have hp : ((p :: ps).isPrefixOf (p :: (ps ++ y))) = true := by
        rw [List.isPrefixOf_iff_prefix]
        exact ⟨y, by simp⟩
      simp [hp]
  | cons c x' ih =>
    rw [List.cons_append, containsStr_cons, ih]
    simp

theorem containsStr_append_free (x s : Str) (p : Char) (ps : Str)
    (hx : p ∉ x) :
    containsStr (x ++ s) (p :: ps) = containsStr s (p :: ps) := by
  induction x with
  | nil => rfl
  | cons c x' ih =>
    have hne : p ≠ c := fun he => hx (by simp [he])
    rw [List.cons_append, containsStr_cons, isPrefixOf_cons_ne p c ps _ hne]
    simp only [Bool.false_or]
    exact ih (fun hm => hx (by simp [hm]))

theorem containsStr_eq_false (s : Str) (p : Char) (ps : Str) (h : p ∉ s) :
    containsStr s (p :: ps) = false := by
  have := containsStr_append_free s [] p ps h
  rw [List.append_nil] at this
  rw [this]
  rfl

theorem findFirstTokenSplit_append_free (x s : Str) (hx : '{' ∉ x) :
    findFirstTokenSplit (x ++ s) = findFirstTokenSplit s := by
  induction x with
  | nil => rfl
  | cons c x' ih =>
    have hne : ¬ c = '{' := fun he => hx (by simp [he])
    rw [List.cons_append, findFirstTokenSplit, if_neg hne]
    exact ih (fun hm => hx (by simp [hm]))

theorem findFirstTokenSplit_none (s : Str) (h : '{' ∉ s) :
    findFirstTokenSplit s = none := by
  have := findFirstTokenSplit_append_free s [] h
  rw [List.append_nil] at this
  rw [this]
  rfl

theorem containsStr_fn_ln (s : Str) :
    containsStr (FirstNamePattern ++ s) LastNamePattern = containsStr s LastNamePattern := rfl

theorem containsStr_fn_mn (s : Str) :
    containsStr (FirstNamePattern ++ s) MiddleNamePattern = containsStr s MiddleNamePattern := rfl

theorem containsStr_fn_nn (s : Str) :
    containsStr (FirstNamePattern ++ s) NicknamePattern = containsStr s NicknamePattern := rfl

theorem containsStr_fn_nm (s : Str) :
    containsStr (FirstNamePattern ++ s) NamesPattern = containsStr s NamesPattern := rfl

theorem findFirstTokenSplit_fn (s : Str) :
    findFirstTokenSplit (FirstNamePattern ++ s) = findFirstTokenSplit s := rfl

-- replaceAll worker lemmas

theorem replaceAllAux_nil (pat v : Str) (n : Nat) : replaceAllAux n [] pat v = [] := by
  cases n <;> rfl

theorem replaceAllAux_irrel (pat v : Str) (n₁ : Nat) :
    ∀ (n₂ : Nat) (s : Str), s.length ≤ n₁ → s.length ≤ n₂ →
      replaceAllAux n₁ s pat v = replaceAllAux n₂ s pat v := by
  induction n₁ with
  | zero =>
    intro n₂ s h1 h2
    have hs : s = [] := by
      cases s
      · rfl
      · simp at h1
    subst hs
    rw [replaceAllAux_nil, replaceAllAux_nil]
  | succ a ih =>
    intro n₂ s h1 h2
    rcases s with _ | ⟨c, t⟩
    · rw [replaceAllAux_nil, replaceAllAux_nil]
    · rcases n₂ with _ | b
      · simp at h2
      · simp only [replaceAllAux]
        split
        · rename_i hcond
          have hpl : 1 ≤ pat.length := by
            rcases pat with _ | ⟨q, qs⟩
            · exact absurd rfl hcond.1
            · simp
          have hd : ((c :: t).drop pat.length).length ≤ a := by
            simp only [List.length_drop, List.length_cons]
            simp only [List.length_cons] at h1
            omega
          have hd2 : ((c :: t).drop pat.length).length ≤ b := by
            simp only [List.length_drop, List.length_cons]
            simp only [List.length_cons] at h2
            omega
          rw [ih b _ hd hd2]
        · simp only [List.length_cons] at h1 h2
          rw [ih b t (by omega) (by omega)]


theorem replaceAllAux_free (p : Char) (ps v : Str) (x : Str) (hx : p ∉ x) :
    ∀ (n : Nat) (s : Str), x.length + s.length ≤ n →
      replaceAllAux n (x ++ s) (p :: ps) v = x ++ replaceAllAux (n - x.length) s (p :: ps) v := by
  induction x with
  | nil =>
    intro n s h
    simp
  | cons c x' ih =>
    intro n s h
    have h' : x'.length + s.length + 1 ≤ n := by
      simp only [List.length_cons] at h
      omega
    rcases n with _ | m
    · exact absurd h' (by omega)
    · rw [List.cons_append]
      simp only [replaceAllAux]
      have hne : p ≠ c := fun he => hx (by simp [he])
      rw [if_neg (by simp [isPrefixOf_cons_ne p c ps _ hne])]
      have hih := ih (fun hm => hx (by simp [hm])) m s (by omega)
      rw [hih]
      have hcc : (c :: x').length = x'.length + 1 := by simp
      rw [hcc]
      have hfe : m + 1 - (x'.length + 1) = m - x'.length := by omega
      rw [hfe]
      simp

theorem replaceAllAux_match (pat v : Str) (hpat : pat ≠ []) (n : Nat) (s : Str)
    (h : pat.length + s.length ≤ n) :
    replaceAllAux n (pat ++ s) pat v = v ++ replaceAllAux (n - pat.length) s pat v := by
  rcases pat with _ | ⟨q, qs⟩
  · exact absurd rfl hpat
  · have h' : qs.length + 1 + s.length ≤ n := by
      simp only [List.length_cons] at h
      omega
    rcases n with _ | m
    · exact absurd h' (by omega)
    · rw [List.cons_append]
      simp only [replaceAllAux]
      rw [if_pos ?hc]
      case hc =>
        constructor
        · simp
        · rw [← List.cons_append, List.isPrefixOf_iff_prefix]
          exact ⟨s, rfl⟩
      rw [show (q :: (qs ++ s)).drop (q :: qs).length = s from by
        rw [← List.cons_append, List.drop_left]]
      congr 1
      apply replaceAllAux_irrel
      · omega
      · simp only [List.length_cons]
        omega

theorem replaceAllAux_none (p : Char) (ps v : Str) :
    ∀ (s : Str) (n : Nat), p ∉ s → replaceAllAux n s (p :: ps) v = s := by
  intro s
  induction s with
  | nil => intro n _; exact replaceAllAux_nil _ _ n
  | cons c t ih =>
    intro n h
    rcases n with _ | m
    · rfl
    · simp only [replaceAllAux]
      have hne : p ≠ c := fun he => h (by simp [he])
      rw [if_neg (by simp [isPrefixOf_cons_ne p c ps _ hne])]
      rw [ih m (fun hm => h (by simp [hm]))]

theorem replaceAll_two (a b c v : Str) (p : Char) (ps : Str)
    (ha : p ∉ a) (hb : p ∉ b) (hc : p ∉ c) :
    replaceAll (a ++ ((p :: ps) ++ (b ++ ((p :: ps) ++ c)))) (p :: ps) v
      = a ++ (v ++ (b ++ (v ++ c))) := by
  unfold replaceAll
  rw [replaceAllAux_free p ps v a ha _ _ (by simp [List.length_append])]
  rw [replaceAllAux_match (p :: ps) v (by simp) _ _ (by
    simp only [List.length_append, List.length_cons]
    omega)]
  rw [replaceAllAux_free p ps v b hb _ _ (by
    simp only [List.length_append, List.length_cons]
    omega)]
  rw [replaceAllAux_match (p :: ps) v (by simp) _ c (by
    simp only [List.length_append, List.length_cons]
    omega)]
  rw [replaceAllAux_none p ps v c _ hc]

-- Alphabetic-output lemmas for the name generator

theorem isAlphaStr_append (s t : Str) :
    isAlphaStr (s ++ t) = (isAlphaStr s && isAlphaStr t) := by
  simp [isAlphaStr, List.all_append]

theorem isAlphaStr_mem (s : Str) (c : Char) (hs : isAlphaStr s = true) (hc : c ∈ s) :
    isAlphaChar c = true := by
  rw [isAlphaStr, List.all_eq_true] at hs
  exact hs c hc

theorem pick_alpha_str (l : List Str) (d : Str) (r : Rng)
    (hl : ∀ x ∈ l, isAlphaStr x = true) (hd : isAlphaStr d = true) :
    isAlphaStr ((pick l d r).1) = true := by
  rcases pick_mem_or l d r with h | h
  · exact hl _ h
  · rw [h]; exact hd

theorem pick_alpha_char (l : List Char) (d : Char) (r : Rng)
    (hl : ∀ x ∈ l, isAlphaChar x = true) (hd : isAlphaChar d = true) :
    isAlphaChar ((pick l d r).1) = true := by
  rcases pick_mem_or l d r with h | h
  · exact hl _ h
  · rw [h]; exact hd

theorem commonSyllables_alpha : ∀ x ∈ commonSyllables, isAlphaStr x = true := by decide
theorem nameEndings_alpha : ∀ x ∈ nameEndings, isAlphaStr x = true := by decide
theorem clusters_alpha : ∀ x ∈ initialConsonantClusters, isAlphaStr x = true := by decide
theorem endConsonants_alpha : ∀ x ∈ endConsonants, isAlphaStr x = true := by decide
theorem vowels_alpha : ∀ x ∈ vowels, isAlphaChar x = true := by decide
theorem consonants_alpha : ∀ x ∈ consonants, isAlphaChar x = true := by decide
theorem endVowels_alpha : ∀ x ∈ endVowels, isAlphaChar x = true := by decide

theorem alpha_upChar (c : Char) (hc : isAlphaChar c = true) : isAlphaChar (upChar c) = true := by
  rw [isAlphaChar, Bool.or_eq_true] at hc
  have h1 : ∀ x ∈ letterChars, isAlphaChar (upChar x) = true := by decide
  have h2 : ∀ x ∈ upperLetters, isAlphaChar (upChar x) = true := by decide
  rcases hc with hc | hc
  · exact h1 c (by simpa using hc)
  · exact h2 c (by simpa using hc)

theorem isAlphaStr_take (s : Str) (n : Nat) (hs : isAlphaStr s = true) :
    isAlphaStr (s.take n) = true := by
  rw [isAlphaStr, List.all_eq_true] at hs ⊢
  exact fun c hc => hs c (List.take_subset n s hc)

theorem isAlphaStr_cap (t : Str) (ht : isAlphaStr t = true) :
    isAlphaStr (t.set 0 (upChar (t.headD 'a'))) = true := by
  rcases t with _ | ⟨c, cs⟩
  · rfl
  · have hc : isAlphaChar c = true := isAlphaStr_mem _ c ht (by simp)
    rw [isAlphaStr, List.all_eq_true] at ht ⊢
    intro x hx
    simp only [List.headD, List.set] at hx
    rcases List.mem_cons.mp hx with hx | hx
    · subst hx
      exact alpha_upChar c hc
    · exact ht x (List.mem_cons_of_mem c hx)

theorem buildNameLoop_alpha (fuel length : Nat) (res : Str) (r : Rng)
    (hres : isAlphaStr res = true) :
    isAlphaStr ((buildNameLoop fuel length res r).1) = true := by
  induction fuel generalizing res r with
  | zero => simpa [buildNameLoop] using hres
  | succ n ih =>
    simp only [buildNameLoop]
    by_cases hg : res.length < length - 2
    · rw [if_pos hg]
      have hsyl : isAlphaStr ((pick commonSyllables ((r"al").toList) (nextFloat r).2).1) = true :=
        pick_alpha_str _ _ _ commonSyllables_alpha (by decide)
      split
      · split
        · refine ih _ _ ?_
          rw [isAlphaStr_append, hres, hsyl]
          rfl
        · split
          · refine ih _ _ ?_
            rw [isAlphaStr_append, hres]
            simpa [isAlphaStr] using pick_alpha_char _ _ _ consonants_alpha (by decide)
          · refine ih _ _ ?_
            rw [isAlphaStr_append, hres]
            simpa [isAlphaStr] using pick_alpha_char _ _ _ vowels_alpha (by decide)
      · split
        · refine ih _ _ ?_
          rw [isAlphaStr_append, hres]
          simpa [isAlphaStr] using pick_alpha_char _ _ _ consonants_alpha (by decide)
        · refine ih _ _ ?_
          rw [isAlphaStr_append, hres]
          simpa [isAlphaStr] using pick_alpha_char _ _ _ vowels_alpha (by decide)
    · rw [if_neg hg]
      exact hres

theorem endingTries_alpha (n length : Nat) (res : Str) (r : Rng)
    (hres : isAlphaStr res = true) :
    isAlphaStr ((endingTries n length res r).1) = true := by
  induction n generalizing r with
  | zero => simpa [endingTries] using hres
  | succ m ih =>
    simp only [endingTries]
    have he : isAlphaStr ((pick nameEndings ((r"a").toList) r).1) = true :=
      pick_alpha_str _ _ _ nameEndings_alpha (by decide)
    split
    · rw [isAlphaStr_append, hres, he]
      rfl
    · exact ih _

theorem nameFinish_alpha (length : Nat) (built : Str) (r : Rng)
    (hb : isAlphaStr built = true) :
    isAlphaStr ((nameFinish length built r).1) = true := by
  unfold nameFinish
  split
  next withEnd r5 heq =>
  have hwe : isAlphaStr withEnd = true := by
    split at heq
    · have hm := endingTries_alpha 5 length built r hb
      rw [heq] at hm
      simpa using hm
    · cases heq
      exact hb
  split
  next fixed r6 heq2 =>
  have hfix : isAlphaStr fixed = true := by
    split at heq2
    · by_cases hv : isVowel (withEnd.getLastD 'a') = true
      · rw [if_pos hv] at heq2
        rcases hpk : pick endConsonants ((r"n").toList) r5 with ⟨ec, rc⟩
        have hec : isAlphaStr ec = true := by
          have := pick_alpha_str endConsonants ((r"n").toList) r5 endConsonants_alpha (by decide)
          rw [hpk] at this
          simpa using this
        rw [hpk] at heq2
        dsimp only at heq2
        by_cases hth : ec = (r"th").toList
        · rw [if_pos hth] at heq2
          by_cases hfits : withEnd.length + 2 ≤ length
          · rw [if_pos hfits] at heq2
            cases heq2
            rw [isAlphaStr_append, hwe]
            rfl
          · rw [if_neg hfits] at heq2
            cases heq2
            rw [isAlphaStr_append, hwe]
            rfl
        · rw [if_neg hth] at heq2
          cases heq2
          rw [isAlphaStr_append, hwe, hec]
          rfl
      · rw [if_neg hv] at heq2
        rcases hpk : pick endVowels 'a' r5 with ⟨ev, rc⟩
        have hev : isAlphaChar ev = true := by
          have := pick_alpha_char endVowels 'a' r5 endVowels_alpha (by decide)
          rw [hpk] at this
          simpa using this
        rw [hpk] at heq2
        dsimp only at heq2
        cases heq2
        rw [isAlphaStr_append, hwe]
        simpa [isAlphaStr] using hev
    · cases heq2
      exact hwe
  have htrim : isAlphaStr (if length < fixed.length then fixed.take length else fixed) = true := by
    split
    · exact isAlphaStr_take fixed length hfix
    · exact hfix
  have hcap : ∀ (t : Str) (f : Nat), isAlphaStr t = true →
      isAlphaStr (if f < 700 then t.set 0 (upChar (t.headD 'a')) else t) = true := by
    intro t f ht
    split
    · exact isAlphaStr_cap t ht
    · exact ht
  first
    | exact hcap _ _ htrim
    | exact htrim

theorem nameStart_alpha (f0 : Nat) (r2 : Rng) : isAlphaStr ((nameStart f0 r2).1) = true := by
  unfold nameStart
  by_cases h1 : f0 < 500
  · rw [if_pos h1]
    exact pick_alpha_str _ _ _ commonSyllables_alpha (by decide)
  · rw [if_neg h1]
    by_cases h2 : f0 < 800
    · rw [if_pos h2]
      rcases hp1 : pick initialConsonantClusters ((r"bl").toList) r2 with ⟨cl, ra⟩
      rcases hp2 : pick vowels 'a' ra with ⟨v, rb⟩
      have hcl : isAlphaStr cl = true := by
        have := pick_alpha_str _ _ r2 clusters_alpha (by decide : isAlphaStr ((r"bl").toList) = true)
        rw [hp1] at this
        simpa using this
      have hv : isAlphaChar v = true := by
        have := pick_alpha_char _ _ ra vowels_alpha (by decide : isAlphaChar 'a' = true)
        rw [hp2] at this
        simpa using this
      dsimp only
      rw [isAlphaStr_append, hcl]
      simpa [isAlphaStr, hp2] using hv
    · rw [if_neg h2]
      rcases hp1 : pick consonants 'b' r2 with ⟨c, ra⟩
      rcases hp2 : pick vowels 'a' ra with ⟨v, rb⟩
      have hc : isAlphaChar c = true := by
        have := pick_alpha_char _ _ r2 consonants_alpha (by decide : isAlphaChar 'b' = true)
        rw [hp1] at this
        simpa using this
      have hv : isAlphaChar v = true := by
        have := pick_alpha_char _ _ ra vowels_alpha (by decide : isAlphaChar 'a' = true)
        rw [hp2] at this
        simpa using this
      dsimp only
      simp [isAlphaStr, hp2, hc, hv]

theorem nameFromLength_alpha (L : Nat) (r : Rng) :
    isAlphaStr ((nameFromLength L r).1) = true := by
  have key : ∀ (start : Str) (r3 : Rng), isAlphaStr start = true →
      isAlphaStr ((nameFinish L (buildNameLoop L L start r3).1 (buildNameLoop L L start r3).2).1) = true := by
    intro start r3 hs
    exact nameFinish_alpha L _ _ (buildNameLoop_alpha L L start r3 hs)
  exact key ((nameStart (nextFloat r).1 (nextFloat r).2).1)
    ((nameStart (nextFloat r).1 (nextFloat r).2).2)
    (nameStart_alpha _ _)

set_option maxHeartbeats 1000000

theorem coordValue_alpha (r : Rng) : isAlphaStr (coordValue r) = true := by
  have h : coordValue r
      = (nameFromLength ((nextN r).1 % (10 - 3 + 1) + 3) (nextN r).2).1 := rfl
  rw [h]
  exact nameFromLength_alpha _ _

-- C10 assembly lemmas

theorem not_mem_of_alpha (s : Str) (ch : Char) (hs : isAlphaStr s = true)
    (hch : isAlphaChar ch = false) : ch ∉ s := by
  intro hm
  rw [isAlphaStr_mem s ch hs hm] at hch
  cases hch

theorem strip_ln (x s : Str) (hx : '{' ∉ x) :
    containsStr (x ++ s) LastNamePattern = containsStr s LastNamePattern :=
  containsStr_append_free x s '{' ((r"lastname}").toList) hx

theorem strip_mn (x s : Str) (hx : '{' ∉ x) :
    containsStr (x ++ s) MiddleNamePattern = containsStr s MiddleNamePattern :=
  containsStr_append_free x s '{' ((r"middlename}").toList) hx

theorem strip_nn (x s : Str) (hx : '{' ∉ x) :
    containsStr (x ++ s) NicknamePattern = containsStr s NicknamePattern :=
  containsStr_append_free x s '{' ((r"nickname}").toList) hx

theorem strip_nm (x s : Str) (hx : '{' ∉ x) :
    containsStr (x ++ s) NamesPattern = containsStr s NamesPattern :=
  containsStr_append_free x s '{' ((r"names}").toList) hx

theorem false_ln (s : Str) (h : '{' ∉ s) : containsStr s LastNamePattern = false :=
  containsStr_eq_false s '{' ((r"lastname}").toList) h

theorem false_mn (s : Str) (h : '{' ∉ s) : containsStr s MiddleNamePattern = false :=
  containsStr_eq_false s '{' ((r"middlename}").toList) h

theorem false_nn (s : Str) (h : '{' ∉ s) : containsStr s NicknamePattern = false :=
  containsStr_eq_false s '{' ((r"nickname}").toList) h

theorem false_nm (s : Str) (h : '{' ∉ s) : containsStr s NamesPattern = false :=
  containsStr_eq_false s '{' ((r"names}").toList) h

theorem false_words (s : Str) (h : '{' ∉ s) : containsStr s WordsPattern = false :=
  containsStr_eq_false s '{' ((r"words}").toList) h

theorem false_wordchars (s : Str) (h : '{' ∉ s) : containsStr s WordCharsPattern = false :=
  containsStr_eq_false s '{' ((r"word-chars}").toList) h

theorem false_chars (s : Str) (h : '{' ∉ s) : containsStr s CharsPattern = false :=
  containsStr_eq_false s '{' ((r"chars}").toList) h

theorem false_domain (s : Str) (h : '%' ∉ s) : containsStr s DomainPlaceholder = false :=
  containsStr_eq_false s '%' ((r"d").toList) h

theorem findAllTokens_of_none (n : Nat) (s : Str) (h : findFirstTokenSplit s = none) :
    findAllTokens n s = [] := by
  unfold findAllTokens
  rw [h]

theorem replaceTokensLoop_of_none (fuel : Nat) (s : Str) (r : Rng)
    (h : findFirstTokenSplit s = none) :
    replaceTokensLoop fuel s r = .ok (s, r) := by
  unfold replaceTokensLoop
  rw [h]

theorem processSimplePatterns_free (fuel : Nat) (s : Str) (r : Rng) (h : '{' ∉ s) :
    processSimplePatterns fuel s r = .ok (s, r) := by
  unfold processSimplePatterns
  simp only [false_words s h, false_wordchars s h, false_chars s h,
    Bool.false_eq_true, if_false]

theorem identify_c10 (a b c : Str) (ha : '{' ∉ a) (hb : '{' ∉ b) (hc : '{' ∉ c) :
    identifyNameTypes (a ++ (FirstNamePattern ++ (b ++ (FirstNamePattern ++ c))))
      = [FirstNamePattern] := by
  have hfn : containsStr (a ++ (FirstNamePattern ++ (b ++ (FirstNamePattern ++ c)))) FirstNamePattern = true :=
    containsStr_of_infix a FirstNamePattern (b ++ (FirstNamePattern ++ c))
  have hln : containsStr (a ++ (FirstNamePattern ++ (b ++ (FirstNamePattern ++ c)))) LastNamePattern = false := by
    rw [strip_ln a _ ha, containsStr_fn_ln, strip_ln b _ hb, containsStr_fn_ln]
    exact false_ln c hc
  have hmn : containsStr (a ++ (FirstNamePattern ++ (b ++ (FirstNamePattern ++ c)))) MiddleNamePattern = false := by
    rw [strip_mn a _ ha, containsStr_fn_mn, strip_mn b _ hb, containsStr_fn_mn]
    exact false_mn c hc
  have hnn : containsStr (a ++ (FirstNamePattern ++ (b ++ (FirstNamePattern ++ c)))) NicknamePattern = false := by
    rw [strip_nn a _ ha, containsStr_fn_nn, strip_nn b _ hb, containsStr_fn_nn]
    exact false_nn c hc
  have hnm : containsStr (a ++ (FirstNamePattern ++ (b ++ (FirstNamePattern ++ c)))) NamesPattern = false := by
    rw [strip_nm a _ ha, containsStr_fn_nm, strip_nm b _ hb, containsStr_fn_nm]
    exact false_nm c hc
  have hscan : findFirstTokenSplit (a ++ (FirstNamePattern ++ (b ++ (FirstNamePattern ++ c)))) = none := by
    rw [findFirstTokenSplit_append_free a _ ha, findFirstTokenSplit_fn,
      findFirstTokenSplit_append_free b _ hb, findFirstTokenSplit_fn]
    exact findFirstTokenSplit_none c hc
  unfold identifyNameTypes
  rw [findAllTokens_of_none _ _ hscan]
  simp [hfn, hln, hmn, hnn, hnm]

theorem coord_single (r : Rng) :
    generateCoordinatedNames [FirstNamePattern] r
      = .ok ([(FirstNamePattern, coordValue r)], coordRest r) := rfl

/-- C10: a bare name placeholder that occurs several times in a pattern
is replaced everywhere by one identical generated value: for any
brace-free and percent-free literal segments around two `{firstname}`
occurrences, the whole expansion succeeds and substitutes the same
coordinated name at both positions. -/
theorem generateAlias_same_value_per_type (a b c : Str) (fuel : Nat) (r : Rng)
    (ha1 : '{' ∉ a) (ha2 : '%' ∉ a) (hb1 : '{' ∉ b) (hb2 : '%' ∉ b)
    (hc1 : '{' ∉ c) (hc2 : '%' ∉ c) :
    GenerateAlias fuel emailEx (a ++ (FirstNamePattern ++ (b ++ (FirstNamePattern ++ c)))) r
      = .ok (a ++ (coordValue r ++ (b ++ (coordValue r ++ c))), coordRest r) := by
  have hvAlpha := coordValue_alpha r
  have hv1 : '{' ∉ coordValue r := not_mem_of_alpha _ _ hvAlpha (by decide)
  have hv2 : '%' ∉ coordValue r := not_mem_of_alpha _ _ hvAlpha (by decide)
  have hout1 : '{' ∉ a ++ (coordValue r ++ (b ++ (coordValue r ++ c))) := by
    simp only [List.mem_append]
    tauto
  have hout2 : '%' ∉ a ++ (coordValue r ++ (b ++ (coordValue r ++ c))) := by
    simp only [List.mem_append]
    tauto
  have hne : ¬(emailEx = [] ∨ a ++ (FirstNamePattern ++ (b ++ (FirstNamePattern ++ c))) = []) := by
    rintro (he | hp)
    · exact absurd he (by decide)
    · rcases List.append_eq_nil.mp hp with ⟨-, hp2⟩
      rcases List.append_eq_nil.mp hp2 with ⟨hp3, -⟩
      exact absurd hp3 (by decide)
  have hsub : replaceAll (a ++ (FirstNamePattern ++ (b ++ (FirstNamePattern ++ c))))
      FirstNamePattern (coordValue r)
      = a ++ (coordValue r ++ (b ++ (coordValue r ++ c))) :=
    replaceAll_two a b c (coordValue r) '{' ((r"firstname}").toList) ha1 hb1 hc1
  have hnone : findFirstTokenSplit (a ++ (coordValue r ++ (b ++ (coordValue r ++ c)))) = none :=
    findFirstTokenSplit_none _ hout1
  have hrep : replaceTemplateVariables fuel
      (a ++ (FirstNamePattern ++ (b ++ (FirstNamePattern ++ c))))
      [(FirstNamePattern, coordValue r)] (coordRest r)
      = .ok (a ++ (coordValue r ++ (b ++ (coordValue r ++ c))), coordRest r) := by
    unfold replaceTemplateVariables
    simp only [List.foldl]
    rw [hsub, replaceTokensLoop_of_none fuel _ _ hnone]
    exact processSimplePatterns_free fuel _ _ hout1
  unfold GenerateAlias
  rw [if_neg hne, if_neg (by decide : ¬ (splitChar '@' emailEx).length ≠ 2)]
  rw [identify_c10 a b c ha1 hb1 hc1]
  dsimp only
  rw [coord_single r]
  dsimp only
  rw [hrep]
  dsimp only
  rw [false_domain _ hout2]
  simp

-- Witnesses

theorem generateAlias_rejects_bad_input_witness :
    (((r"bad-address").toList = ([] : Str) ∨ WordsPattern = ([] : Str)
        ∨ countChar '@' ((r"bad-address").toList) ≠ 1)
      ∧ isInputError (GenerateAlias 0 ((r"bad-address").toList) WordsPattern []) = true) :=
  ⟨by decide, generateAlias_rejects_bad_input 0 _ _ [] (by decide)⟩

theorem identifyNameTypes_keys_unqualified_witness :
    FirstNamePattern ∈ identifyNameTypes coordPattern
    ∧ findFirstTokenSplit FirstNamePattern = none :=
  ⟨by decide, identifyNameTypes_keys_unqualified coordPattern FirstNamePattern (by decide)⟩

theorem generateWords_vocab_from_three_witness :
    (3 ≤ 3 ∧ (r"amber").toList ∈ (generateWordsList 3 3 [0, 0, 0, 0, 0, 0, 0, 0, 0]).1)
    ∧ ((r"amber").toList ∈ adjectives ∨ (r"amber").toList ∈ commonNouns) :=
  ⟨⟨by decide, by decide⟩,
   generateWords_vocab_from_three 3 [0, 0, 0, 0, 0, 0, 0, 0, 0] ((r"amber").toList)
     (by decide) (by decide)⟩

theorem lengthQualifier_constraints_witness :
    ((1 : Nat) ≤ 4 ∧ (4 : Nat) ≤ 6 ∧ (6 : Nat) ≤ 50 ∧ (1 : Nat) ≤ 5
      ∧ randBetween 4 6 [0] = .ok (4, [])
      ∧ generateName 4 6 [0, 0, 0, 0, 0, 0, 0, 0, 0, 0] = .ok ((r"Alan").toList, [0, 0, 0, 0]))
    ∧ ((((generateWordChars 5 [0, 0, 0, 0, 0]).1).length = 5
      ∧ isAlphaChar (((generateWordChars 5 [0, 0, 0, 0, 0]).1).headD '0') = true)
    ∧ (((generateChars 5 [0, 0, 0, 0, 0]).1).length = 5
      ∧ isAlphaChar (((generateChars 5 [0, 0, 0, 0, 0]).1).headD '0') = true)
    ∧ ((4 : Nat) ≤ 4 ∧ (4 : Nat) ≤ 6)
    ∧ ((4 : Nat) - 2 ≤ ((r"Alan").toList).length ∧ ((r"Alan").toList).length ≤ 6)) :=
  ⟨⟨by decide, by decide, by decide, by decide, rfl, rfl⟩,
   lengthQualifier_constraints 4 6 5 4 ((r"Alan").toList)
     [0, 0, 0, 0, 0] [0] [0, 0, 0, 0, 0, 0, 0, 0, 0, 0] [0, 0, 0, 0, 0] [] [0, 0, 0, 0]
     (by decide) (by decide) (by decide) (by decide) rfl rfl⟩

theorem authenticate_cache_gates_remote_witness :
    (0 < stHit.cacheTTL
      ∧ (toUpperStr stHit.method = imapStr ∨ toUpperStr stHit.method = smtpStr))
    ∧ ((authenticate stHit verifyYes 400 u0 p0).2.2
        = !(cacheHasValidB stHit.cache (hashCredentials u0 p0) 400)
      ∧ (authenticate stHit verifyYes 400 u0 p0).1
        = (if cacheHasValidB stHit.cache (hashCredentials u0 p0) 400 then .ok ()
           else if verifyYes u0 p0 then .ok () else .error .verifyFailed)) :=
  ⟨⟨by decide, by decide⟩,
   authenticate_cache_gates_remote stHit verifyYes 400 u0 p0 (by decide) (by decide)⟩

theorem authenticate_cache_changes_only_on_success_witness :
    ((authenticate stMiss verifyYes 100 u0 p0).2.1.cache ≠ stMiss.cache)
    ∧ ((authenticate stMiss verifyYes 100 u0 p0).1 = .ok ()
      ∧ (authenticate stMiss verifyYes 100 u0 p0).2.2 = true
      ∧ verifyYes u0 p0 = true) :=
  ⟨by decide,
   authenticate_cache_changes_only_on_success stMiss verifyYes 100 u0 p0 (by decide)⟩

theorem cleanupCache_removes_exactly_expired_witness :
    (0 < stClean.cacheTTL)
    ∧ ((cleanupCache stClean 400).1
        = (stClean.cache.filter (fun kv => decide (kv.2 < 400))).length
      ∧ (cleanupCache stClean 400).2
        = { stClean with cache := stClean.cache.filter (fun kv => !decide (kv.2 < 400)) }) :=
  ⟨by decide, cleanupCache_removes_exactly_expired stClean 400 (by decide)⟩

theorem generateAlias_same_value_per_type_witness :
    ('{' ∉ (r"x.").toList ∧ '%' ∉ (r"x.").toList
      ∧ '{' ∉ (r"-").toList ∧ '%' ∉ (r"-").toList
      ∧ '{' ∉ (r"y").toList ∧ '%' ∉ (r"y").toList)
    ∧ GenerateAlias 0 emailEx
        ((r"x.").toList ++ (FirstNamePattern ++ ((r"-").toList ++ (FirstNamePattern ++ (r"y").toList))))
        [0, 0, 0, 0, 0, 0, 0, 0]
      = .ok ((r"x.").toList ++ (coordValue [0, 0, 0, 0, 0, 0, 0, 0]
          ++ ((r"-").toList ++ (coordValue [0, 0, 0, 0, 0, 0, 0, 0] ++ (r"y").toList))),
            coordRest [0, 0, 0, 0, 0, 0, 0, 0]) :=
  ⟨⟨by decide, by decide, by decide, by decide, by decide, by decide⟩,
   generateAlias_same_value_per_type ((r"x.").toList) ((r"-").toList) ((r"y").toList)
     0 [0, 0, 0, 0, 0, 0, 0, 0]
     (by decide) (by decide) (by decide) (by decide) (by decide) (by decide)⟩
